import Mathlib

/-!
Verification of the FocusFlow document codec and store-access layer
(`FirebaseService`): the record encoder/decoder to and from the Firestore
REST wire format, the patch builder used by the update operations, and the
pure response-handling logic of the store operations.

Times are modelled as broken-down UTC calendar times at whole-second
precision (`GoTime`), matching how the code only ever passes times through
`Format(time.RFC3339)` and `Parse(time.RFC3339)`; the model covers the
UTC "Z"-suffixed, whole-second wire form that `Format` emits.
-/

namespace FocusFlow

/-- A UTC calendar time at whole-second precision, standing for Go's
`time.Time` as used by the codec (which only formats/parses RFC3339). -/
structure GoTime where
  year : Nat
  month : Nat
  day : Nat
  hour : Nat
  minute : Nat
  second : Nat
deriving DecidableEq, Repr

/-- Go's zero `time.Time` is January 1, year 1, 00:00:00 UTC. -/
def GoTime.zero : GoTime := ⟨1, 1, 1, 0, 0, 0⟩

def isLeapYear (y : Nat) : Bool :=
  (y % 4 == 0 && y % 100 != 0) || (y % 400 == 0)

def daysInMonth (y mo : Nat) : Nat :=
  if mo = 2 then (if isLeapYear y then 29 else 28)
  else if mo = 4 ∨ mo = 6 ∨ mo = 9 ∨ mo = 11 then 30
  else 31

/-- A calendar-valid time renderable in the fixed-width RFC3339 form. -/
def GoTime.Valid (t : GoTime) : Prop :=
  t.year ≤ 9999 ∧ 1 ≤ t.month ∧ t.month ≤ 12 ∧ 1 ≤ t.day ∧
    t.day ≤ daysInMonth t.year t.month ∧ t.hour ≤ 23 ∧ t.minute ≤ 59 ∧
    t.second ≤ 59

instance (t : GoTime) : Decidable t.Valid := by
  unfold GoTime.Valid
  infer_instance

def digitVal (c : Char) : Nat := c.toNat - 48

def pad2 (n : Nat) : List Char :=
  [Nat.digitChar (n / 10 % 10), Nat.digitChar (n % 10)]

def pad4 (n : Nat) : List Char :=
  [Nat.digitChar (n / 1000 % 10), Nat.digitChar (n / 100 % 10),
   Nat.digitChar (n / 10 % 10), Nat.digitChar (n % 10)]

/-- `time.Time.Format(time.RFC3339)` for a UTC time: `YYYY-MM-DDThh:mm:ssZ`. -/
def formatRFC3339 (t : GoTime) : String :=
  ⟨pad4 t.year ++ '-' :: (pad2 t.month ++ '-' :: (pad2 t.day ++
    'T' :: (pad2 t.hour ++ ':' :: (pad2 t.minute ++ ':' :: (pad2 t.second ++ ['Z'])))))⟩

def parseChars : List Char → Option GoTime
  | y1 :: y2 :: y3 :: y4 :: c1 :: mo1 :: mo2 :: c2 :: d1 :: d2 :: c3 ::
      h1 :: h2 :: c4 :: mi1 :: mi2 :: c5 :: s1 :: s2 :: c6 :: [] =>
    if c1 = '-' ∧ c2 = '-' ∧ c3 = 'T' ∧ c4 = ':' ∧ c5 = ':' ∧ c6 = 'Z' then
      if y1.isDigit ∧ y2.isDigit ∧ y3.isDigit ∧ y4.isDigit ∧
          mo1.isDigit ∧ mo2.isDigit ∧ d1.isDigit ∧ d2.isDigit ∧
          h1.isDigit ∧ h2.isDigit ∧ mi1.isDigit ∧ mi2.isDigit ∧
          s1.isDigit ∧ s2.isDigit then
        let y := 1000 * digitVal y1 + 100 * digitVal y2 + 10 * digitVal y3 + digitVal y4
        let mo := 10 * digitVal mo1 + digitVal mo2
        let d := 10 * digitVal d1 + digitVal d2
        let h := 10 * digitVal h1 + digitVal h2
        let mi := 10 * digitVal mi1 + digitVal mi2
        let sec := 10 * digitVal s1 + digitVal s2
        if 1 ≤ mo ∧ mo ≤ 12 ∧ 1 ≤ d ∧ d ≤ daysInMonth y mo ∧
            h ≤ 23 ∧ mi ≤ 59 ∧ sec ≤ 59 then
          some ⟨y, mo, d, h, mi, sec⟩
        else none
      else none
    else none
  | _ => none

/-- `time.Parse(time.RFC3339, s)` restricted to the UTC whole-second form. -/
def parseRFC3339 (s : String) : Option GoTime := parseChars s.data

theorem digitChar_isDigit (n : Nat) (h : n < 10) : (Nat.digitChar n).isDigit = true := by
  interval_cases n <;> decide

theorem digitVal_digitChar (n : Nat) (h : n < 10) : digitVal (Nat.digitChar n) = n := by
  interval_cases n <;> decide

theorem daysInMonth_le (y mo : Nat) : daysInMonth y mo ≤ 31 := by
  unfold daysInMonth
  split
  · split <;> omega
  · split <;> omega

theorem parseRFC3339_formatRFC3339 (t : GoTime) (h : t.Valid) :
    parseRFC3339 (formatRFC3339 t) = some t := by
  obtain ⟨y, mo, d, hh, mi, s⟩ := t
  simp only [GoTime.Valid] at h
  obtain ⟨h1, h2, h3, h4, h5, h6, h7, h8⟩ := h
  have h5' : d ≤ 31 := le_trans h5 (daysInMonth_le y mo)
  simp only [formatRFC3339, parseRFC3339, pad4, pad2, List.cons_append, List.nil_append]
  rw [parseChars]
  rw [if_pos (by exact ⟨rfl, rfl, rfl, rfl, rfl, rfl⟩)]
  rw [if_pos]
  · simp only [digitVal_digitChar _ (Nat.mod_lt _ (by norm_num))]
    have hy : 1000 * (y / 1000 % 10) + 100 * (y / 100 % 10) + 10 * (y / 10 % 10) + y % 10 = y := by
      omega
    have hmo : 10 * (mo / 10 % 10) + mo % 10 = mo := by omega
    have hd : 10 * (d / 10 % 10) + d % 10 = d := by omega
    have hhh : 10 * (hh / 10 % 10) + hh % 10 = hh := by omega
    have hmi : 10 * (mi / 10 % 10) + mi % 10 = mi := by omega
    have hs : 10 * (s / 10 % 10) + s % 10 = s := by omega
    simp only [hy, hmo, hd, hhh, hmi, hs]
    rw [if_pos (by exact ⟨h2, h3, h4, h5, h6, h7, h8⟩)]
  · refine ⟨?_, ?_, ?_, ?_, ?_, ?_, ?_, ?_, ?_, ?_, ?_, ?_, ?_, ?_⟩ <;>
      exact digitChar_isDigit _ (Nat.mod_lt _ (by norm_num))

/-- A parsed JSON value, the counterpart of Go's `interface{}` holding
decoded `encoding/json` data (`map[string]interface{}`, `[]interface{}`,
`string`, `bool`, numbers, `nil`). -/
inductive JSON where
  | str (s : String)
  | boolean (b : Bool)
  | num (n : Int)
  | null
  | arr (elems : List JSON)
  | obj (entries : List (String × JSON))

/-- A JSON object, the counterpart of Go's `map[string]interface{}`.
Go maps have unique keys; lookup returns the first matching entry. -/
abbrev JObj := List (String × JSON)

def jLookup (o : JObj) (key : String) : Option JSON :=
  match o with
  | [] => none
  | (k, v) :: rest => if k = key then some v else jLookup rest key

/-! The application records from `internal/models/models.go`, restricted to
the fields the codec touches plus the identifier (`firestore:"-"`). -/

/-- `models.UserSession`. -/
structure UserSession where
  userID : String
  email : String
  name : String
  accessToken : String
  refreshToken : Option String
  createdAt : GoTime
  lastLogin : GoTime
deriving DecidableEq, Repr

/-- The Go zero value of `models.UserSession`. -/
def UserSession.zero : UserSession :=
  ⟨"", "", "", "", none, GoTime.zero, GoTime.zero⟩

/-- `models.Task`. -/
structure Task where
  id : String
  userID : String
  title : String
  description : Option String
  completed : Bool
  status : String
  priority : String
  startDate : Option GoTime
  dueDate : Option GoTime
  estimatedHours : Option Int
  actualHours : Option Int
  googleEventID : Option String
  createdAt : GoTime
  updatedAt : GoTime
deriving DecidableEq, Repr

/-- The Go zero value of `models.Task`. -/
def Task.zero : Task :=
  ⟨"", "", "", none, false, "", "", none, none, none, none, none,
   GoTime.zero, GoTime.zero⟩

/-- `models.Meeting`. -/
structure Meeting where
  id : String
  userID : String
  title : String
  description : Option String
  startTime : GoTime
  endTime : GoTime
  attendees : List String
  location : Option String
  meetingType : String
  status : String
  googleEventID : Option String
  createdAt : GoTime
deriving DecidableEq, Repr

/-- The Go zero value of `models.Meeting`. -/
def Meeting.zero : Meeting :=
  ⟨"", "", "", none, GoTime.zero, GoTime.zero, [], none, "", "", none, GoTime.zero⟩

/-- `models.Reminder`. -/
structure Reminder where
  id : String
  userID : String
  title : String
  description : Option String
  reminderTime : GoTime
  reminderType : String
  isCompleted : Bool
  priority : String
  googleEventID : Option String
  createdAt : GoTime
deriving DecidableEq, Repr

/-- The Go zero value of `models.Reminder`. -/
def Reminder.zero : Reminder :=
  ⟨"", "", "", none, GoTime.zero, "", false, "", none, GoTime.zero⟩

/-- The `data interface{}` argument of `toFirestoreDoc`: one of the four
record kinds. -/
inductive Record where
  | session (u : UserSession)
  | task (t : Task)
  | meeting (m : Meeting)
  | reminder (r : Reminder)
deriving DecidableEq, Repr

/-- The freshly allocated zero record of the same kind, as a Go caller
passes into `fromFirestoreDoc` via pointer. -/
def Record.zeroLike : Record → Record
  | .session _ => .session UserSession.zero
  | .task _ => .task Task.zero
  | .meeting _ => .meeting Meeting.zero
  | .reminder _ => .reminder Reminder.zero

def fsString (s : String) : JSON := .obj [("stringValue", .str s)]

def fsBool (b : Bool) : JSON := .obj [("booleanValue", .boolean b)]

def fsInteger (s : String) : JSON := .obj [("integerValue", .str s)]

def fsTimestamp (t : GoTime) : JSON :=
  .obj [("timestampValue", .str (formatRFC3339 t))]

/-- The `fields` map built by `toFirestoreDoc` for a `*models.UserSession`. -/
def sessionFields (v : UserSession) : JObj :=
  [("userId", fsString v.userID),
   ("email", fsString v.email),
   ("name", fsString v.name),
   ("accessToken", fsString v.accessToken)] ++
  (match v.refreshToken with
   | some rt => [("refreshToken", fsString rt)]
   | none => []) ++
  [("createdAt", fsTimestamp v.createdAt),
   ("lastLogin", fsTimestamp v.lastLogin)]

/-- The `fields` map built by `toFirestoreDoc` for a `*models.Task`. -/
def taskFields (v : Task) : JObj :=
  [("userId", fsString v.userID),
   ("title", fsString v.title)] ++
  (match v.description with
   | some d => [("description", fsString d)]
   | none => []) ++
  [("completed", fsBool v.completed),
   ("status", fsString v.status),
   ("priority", fsString v.priority)] ++
  (match v.startDate with
   | some d => [("startDate", fsTimestamp d)]
   | none => []) ++
  (match v.dueDate with
   | some d => [("dueDate", fsTimestamp d)]
   | none => []) ++
  (match v.estimatedHours with
   | some n => [("estimatedHours", fsInteger (toString n))]
   | none => []) ++
  (match v.actualHours with
   | some n => [("actualHours", fsInteger (toString n))]
   | none => []) ++
  [("createdAt", fsTimestamp v.createdAt),
   ("updatedAt", fsTimestamp v.updatedAt)]

/-- `FirebaseService.toFirestoreDoc`: the type switch has cases only for
`*models.UserSession` and `*models.Task`; every other input falls through
with the `fields` map left empty. -/
def toFirestoreDoc : Record → JSON
  | .session v => .obj [("fields", .obj (sessionFields v))]
  | .task v => .obj [("fields", .obj (taskFields v))]
  | .meeting _ => .obj [("fields", .obj [])]
  | .reminder _ => .obj [("fields", .obj [])]

/-- `FirebaseService.getStringValue`. -/
def getStringValue (fields : JObj) (key : String) : Option String :=
  match jLookup fields key with
  | some (.obj field) =>
    match jLookup field "stringValue" with
    | some (.str s) => some s
    | _ => none
  | _ => none

/-- `FirebaseService.getBooleanValue`. -/
def getBooleanValue (fields : JObj) (key : String) : Option Bool :=
  match jLookup fields key with
  | some (.obj field) =>
    match jLookup field "booleanValue" with
    | some (.boolean b) => some b
    | _ => none
  | _ => none

/-- `FirebaseService.getTimestampValue`: a present `timestampValue` string
that fails `time.Parse` is treated the same as an absent field. -/
def getTimestampValue (fields : JObj) (key : String) : Option GoTime :=
  match jLookup fields key with
  | some (.obj field) =>
    match jLookup field "timestampValue" with
    | some (.str s) => parseRFC3339 s
    | _ => none
  | _ => none

/-- The errors the service layer produces, one constructor per
`fmt.Errorf` site, with the varying payload attached. -/
inductive StoreErr where
  | badDocFormat
  | userNotFound
  | getUserFailed
  | createUserFailed (body : String)
  | updateUserFailed (body : String)
  | createTaskFailed (body : String)
  | updateTaskFailed (body : String)
  | deleteTaskFailed (body : String)
  | extractIDFailed
  | badBody
deriving DecidableEq, Repr

/-- The message string each error renders to, as built by `fmt.Errorf`. -/
def StoreErr.render : StoreErr → String
  | .badDocFormat => "invalid firestore document format"
  | .userNotFound => "user not found"
  | .getUserFailed => "failed to get user"
  | .createUserFailed b => "failed to create user: " ++ b
  | .updateUserFailed b => "failed to update user: " ++ b
  | .createTaskFailed b => "failed to create task: " ++ b
  | .updateTaskFailed b => "failed to update task: " ++ b
  | .deleteTaskFailed b => "failed to delete task: " ++ b
  | .extractIDFailed => "failed to extract document ID"
  | .badBody => "invalid response body"

/-- The `*models.UserSession` arm of `fromFirestoreDoc`: each field is
assigned only when its getter succeeds, otherwise left as in `v`. -/
def decodeSessionFields (fields : JObj) (v : UserSession) : UserSession :=
  let v := match getStringValue fields "userId" with
    | some x => { v with userID := x } | none => v
  let v := match getStringValue fields "email" with
    | some x => { v with email := x } | none => v
  let v := match getStringValue fields "name" with
    | some x => { v with name := x } | none => v
  let v := match getStringValue fields "accessToken" with
    | some x => { v with accessToken := x } | none => v
  let v := match getStringValue fields "refreshToken" with
    | some x => { v with refreshToken := some x } | none => v
  let v := match getTimestampValue fields "createdAt" with
    | some x => { v with createdAt := x } | none => v
  let v := match getTimestampValue fields "lastLogin" with
    | some x => { v with lastLogin := x } | none => v
  v

/-- The `*models.Task` arm of `fromFirestoreDoc`: note that
`estimatedHours`, `actualHours` and `googleEventId` are never read back. -/
def decodeTaskFields (fields : JObj) (v : Task) : Task :=
  let v := match getStringValue fields "userId" with
    | some x => { v with userID := x } | none => v
  let v := match getStringValue fields "title" with
    | some x => { v with title := x } | none => v
  let v := match getStringValue fields "description" with
    | some x => { v with description := some x } | none => v
  let v := match getBooleanValue fields "completed" with
    | some x => { v with completed := x } | none => v
  let v := match getStringValue fields "status" with
    | some x => { v with status := x } | none => v
  let v := match getStringValue fields "priority" with
    | some x => { v with priority := x } | none => v
  let v := match getTimestampValue fields "startDate" with
    | some x => { v with startDate := some x } | none => v
  let v := match getTimestampValue fields "dueDate" with
    | some x => { v with dueDate := some x } | none => v
  let v := match getTimestampValue fields "createdAt" with
    | some x => { v with createdAt := x } | none => v
  let v := match getTimestampValue fields "updatedAt" with
    | some x => { v with updatedAt := x } | none => v
  v

/-- `FirebaseService.fromFirestoreDoc` decoding into a `*models.Task`. -/
def fromFirestoreDocTask (doc : JObj) (v : Task) : Except StoreErr Task :=
  match jLookup doc "fields" with
  | some (.obj fields) => .ok (decodeTaskFields fields v)
  | _ => .error .badDocFormat

/-- `FirebaseService.fromFirestoreDoc` decoding into a `*models.UserSession`. -/
def fromFirestoreDocSession (doc : JObj) (v : UserSession) : Except StoreErr UserSession :=
  match jLookup doc "fields" with
  | some (.obj fields) => .ok (decodeSessionFields fields v)
  | _ => .error .badDocFormat

/-- `FirebaseService.fromFirestoreDoc`: the `fields` lookup is checked for
every input; the type switch has arms only for `*models.UserSession` and
`*models.Task`, so a `*models.Meeting` or `*models.Reminder` result is
left untouched. -/
def fromFirestoreDoc (doc : JObj) : Record → Except StoreErr Record
  | .session v => (fromFirestoreDocSession doc v).map .session
  | .task v => (fromFirestoreDocTask doc v).map .task
  | .meeting v =>
    match jLookup doc "fields" with
    | some (.obj _) => .ok (.meeting v)
    | _ => .error .badDocFormat
  | .reminder v =>
    match jLookup doc "fields" with
    | some (.obj _) => .ok (.reminder v)
    | _ => .error .badDocFormat

/-- Encoding a record and decoding the result into a freshly allocated
zero record of the same kind, as the store operations do. -/
def roundTrip (r : Record) : Except StoreErr Record :=
  match toFirestoreDoc r with
  | .obj doc => fromFirestoreDoc doc r.zeroLike
  | _ => .error .badDocFormat

/-- Go's `strings.Split(s, sep)` for a one-character separator: always
returns at least one (possibly empty) part. -/
def goSplit (sep : Char) : List Char → List (List Char)
  | [] => [[]]
  | c :: rest =>
    match goSplit sep rest with
    | [] => [[]]
    | p :: ps => if c = sep then [] :: p :: ps else (c :: p) :: ps

/-- `parts[len(parts)-1]` after `strings.Split(name, "/")`: the document
identifier extracted by `CreateTask` and `GetTasks`. -/
def goLastSegment (s : String) : String :=
  ⟨(goSplit '/' s.data).getLastD []⟩

/-- Modelled from the spec's words, independently of the code: the final
path segment of a resource name is its maximal `/`-free suffix. -/
def specFinalSegment (s : String) : String :=
  ⟨(s.data.reverse.takeWhile (fun x => decide (x ≠ '/'))).reverse⟩

theorem takeWhile_all {p : Char → Bool} {xs : List Char}
    (h : ∀ x ∈ xs, p x = true) : xs.takeWhile p = xs := by
  induction xs with
  | nil => simp
  | cons x xs ih =>
    rw [List.takeWhile_cons, if_pos (h x (by simp)), ih (fun a ha => h a (by simp [ha]))]

theorem takeWhile_concat_false {p : Char → Bool} {a : Char} {xs : List Char}
    (h : p a = false) : (xs ++ [a]).takeWhile p = xs.takeWhile p := by
  induction xs with
  | nil => simp [List.takeWhile_cons, h]
  | cons x xs ih =>
    by_cases hx : p x
    · simp only [List.cons_append, List.takeWhile_cons, hx, ite_true, ih]
    · simp only [List.cons_append, List.takeWhile_cons, hx]
      simp

theorem takeWhile_append_stop {p : Char → Bool} {xs ys : List Char}
    (h : ∃ x ∈ xs, p x = false) : (xs ++ ys).takeWhile p = xs.takeWhile p := by
  induction xs with
  | nil => obtain ⟨x, hx, _⟩ := h; simp at hx
  | cons x xs ih =>
    by_cases hx : p x
    · simp only [List.cons_append, List.takeWhile_cons, hx, ite_true]
      obtain ⟨z, hz, hpz⟩ := h
      rcases List.mem_cons.mp hz with rfl | hz'
      · rw [hx] at hpz; cases hpz
      · rw [ih ⟨z, hz', hpz⟩]
    · simp only [List.cons_append, List.takeWhile_cons, hx]
      simp

/-- The last part of Go's split is the maximal separator-free suffix, and
the parts before it number one per separator occurrence. -/
theorem goSplit_concat (sep : Char) (l : List Char) :
    ∃ front, goSplit sep l = front ++ [(l.reverse.takeWhile (fun x => decide (x ≠ sep))).reverse] ∧
      front.length = l.count sep := by
  induction l with
  | nil => exact ⟨[], by simp [goSplit], by simp⟩
  | cons c rest ih =>
    obtain ⟨front, hf, hlen⟩ := ih
    rw [List.reverse_cons]
    by_cases h : c = sep
    · subst h
      refine ⟨[] :: front, ?_, by simp [hlen, List.count_cons]⟩
      rw [takeWhile_concat_false (by simp)]
      simp only [goSplit, hf]
      cases front <;> simp
    · by_cases hmem : sep ∈ rest
      · have hfront : front ≠ [] := by
          intro hnil
          subst hnil
          simp only [List.length_nil] at hlen
          exact (List.count_eq_zero.mp hlen.symm) hmem
        rw [takeWhile_append_stop ⟨sep, List.mem_reverse.mpr hmem, by simp⟩]
        cases front with
        | nil => exact absurd rfl hfront
        | cons f fs =>
          refine ⟨(c :: f) :: fs, ?_, ?_⟩
          · simp only [goSplit, hf, List.cons_append]
            simp [h]
          · simp only [List.length_cons] at hlen ⊢
            rw [List.count_cons]
            simp [h, hlen]
      · have hzero : rest.count sep = 0 := List.count_eq_zero.mpr hmem
        have hfront : front = [] := by
          rw [hzero] at hlen
          exact List.length_eq_zero.mp hlen
        subst hfront
        have hall : ∀ x ∈ rest.reverse, (decide (x ≠ sep)) = true := by
          intro x hx
          simp only [decide_eq_true_eq, ne_eq]
          intro hxe
          exact hmem (hxe ▸ List.mem_reverse.mp hx)
        refine ⟨[], ?_, by simp [List.count_cons, h, hzero]⟩
        have hRall : rest.reverse.takeWhile (fun x => decide (x ≠ sep)) = rest.reverse :=
          takeWhile_all hall
        rw [takeWhile_all (by
          intro x hx
          rcases List.mem_append.mp hx with hx' | hx'
          · exact hall x hx'
          · simp at hx'
            simp [hx', h])]
        simp only [goSplit, hf, hRall, List.nil_append]
        simp [h]

theorem goSplit_getLastD (sep : Char) (l : List Char) :
    (goSplit sep l).getLastD [] = (l.reverse.takeWhile (fun x => decide (x ≠ sep))).reverse := by
  obtain ⟨front, hf, _⟩ := goSplit_concat sep l
  rw [hf]
  exact List.getLastD_concat _ _ _

theorem goLastSegment_eq_specFinalSegment (s : String) :
    goLastSegment s = specFinalSegment s := by
  simp only [goLastSegment, specFinalSegment, goSplit_getLastD]

/-- A native Go value placed in an `updates map[string]interface{}` by a
caller of `UpdateTask`/`UpdateUser`. The update loops recognize only
`string`, `time.Time` and `bool`; everything else is dropped. -/
inductive GoValue where
  | str (s : String)
  | time (t : GoTime)
  | boolean (b : Bool)
  | int (n : Int)
  | strList (xs : List String)
  | null
deriving DecidableEq, Repr

/-- The `updates` mapping, with Go-map unique keys modelled as an
association list looked up at the first match. -/
abbrev Updates := List (String × GoValue)

/-- Go map assignment `m[k] = v`: replace the binding if the key is
present, append it otherwise. -/
def mapSet (m : Updates) (key : String) (v : GoValue) : Updates :=
  match m with
  | [] => [(key, v)]
  | (k, w) :: rest => if k = key then (key, v) :: rest else (k, w) :: mapSet rest key v

/-- The patch-building loop shared by `UpdateTask` and `UpdateUser`: a
type switch mapping `string` to `stringValue`, `time.Time` to
`timestampValue` and `bool` to `booleanValue`; any other value falls
through the switch and is dropped. -/
def buildPatch : Updates → JObj
  | [] => []
  | (k, v) :: rest =>
    match v with
    | .str s => (k, fsString s) :: buildPatch rest
    | .time t => (k, fsTimestamp t) :: buildPatch rest
    | .boolean b => (k, fsBool b) :: buildPatch rest
    | _ => buildPatch rest

/-- The store's HTTP response to one operation: the status code, the raw
body (as read by `io.ReadAll` on error paths), and the body parsed as
JSON (`none` when `json.Decode` fails). -/
structure StoreResponse where
  status : Nat
  rawBody : String
  json : Option JSON

/-- Response handling of `FirebaseService.CreateUser`. -/
def createUser (resp : StoreResponse) : Except StoreErr Unit :=
  if 400 ≤ resp.status then .error (.createUserFailed resp.rawBody)
  else .ok ()

/-- Response handling of `FirebaseService.GetUser`: 404 is checked before
the generic error-status branch; on success the body is decoded into a
zero `models.UserSession`. -/
def getUser (resp : StoreResponse) : Except StoreErr UserSession :=
  if resp.status = 404 then .error .userNotFound
  else if 400 ≤ resp.status then .error .getUserFailed
  else
    match resp.json with
    | some (.obj doc) => fromFirestoreDocSession doc UserSession.zero
    | _ => .error .badBody

/-- The patch document built by `FirebaseService.UpdateUser`: the
`lastLogin` entry is set to `time.Now()` before the conversion loop. -/
def updateUserDoc (updates : Updates) (now : GoTime) : JSON :=
  .obj [("fields", .obj (buildPatch (mapSet updates "lastLogin" (.time now))))]

/-- The PATCH request `UpdateUser` issues: target path and body. -/
def updateUserRequest (userID : String) (updates : Updates) (now : GoTime) :
    Option (String × JSON) :=
  some ("/users/" ++ userID, updateUserDoc updates now)

/-- Response handling of `FirebaseService.UpdateUser`. -/
def updateUser (resp : StoreResponse) : Except StoreErr Unit :=
  if 400 ≤ resp.status then .error (.updateUserFailed resp.rawBody)
  else .ok ()

/-- Response handling of `FirebaseService.CreateTask`: on success the
generated identifier is the last `/`-separated part of the response's
`name` field. -/
def createTask (resp : StoreResponse) : Except StoreErr String :=
  if 400 ≤ resp.status then .error (.createTaskFailed resp.rawBody)
  else
    match resp.json with
    | some (.obj result) =>
      match jLookup result "name" with
      | some (.str name) => .ok (goLastSegment name)
      | _ => .error .extractIDFailed
    | _ => .error .badBody

/-- The document `CreateTask` posts: `CreatedAt` and `UpdatedAt` are
stamped with `time.Now()` before encoding. -/
def createTaskDoc (task : Task) (now : GoTime) : JSON :=
  toFirestoreDoc (.task { task with createdAt := now, updatedAt := now })

/-- The per-document body of the `GetTasks` loop: non-object entries and
documents failing `fromFirestoreDoc` are skipped; surviving tasks are
kept only when `task.UserID` equals the requested user, with the
identifier extracted from the document's `name`. -/
def getTasksLoop (userID : String) : List JSON → List Task
  | [] => []
  | dj :: rest =>
    let tail := getTasksLoop userID rest
    match dj with
    | .obj doc =>
      match fromFirestoreDocTask doc Task.zero with
      | .ok task =>
        if task.userID = userID then
          (match jLookup doc "name" with
           | some (.str name) => { task with id := goLastSegment name }
           | _ => task) :: tail
        else tail
      | .error _ => tail
    | _ => tail

/-- Response handling of `FirebaseService.GetTasks`: every store-side
failure (error status, unparseable body, missing `documents` array)
yields an empty list with a nil error. -/
def getTasks (userID : String) (resp : StoreResponse) : Except StoreErr (List Task) :=
  if 400 ≤ resp.status then .ok []
  else
    match resp.json with
    | some (.obj result) =>
      match jLookup result "documents" with
      | some (.arr docs) => .ok (getTasksLoop userID docs)
      | _ => .ok []
    | _ => .ok []

/-- The patch document built by `FirebaseService.UpdateTask`: the
`updatedAt` entry is set to `time.Now()` before the conversion loop. -/
def updateTaskDoc (updates : Updates) (now : GoTime) : JSON :=
  .obj [("fields", .obj (buildPatch (mapSet updates "updatedAt" (.time now))))]

/-- The PATCH request `UpdateTask` issues: target path and body. -/
def updateTaskRequest (taskID : String) (updates : Updates) (now : GoTime) :
    Option (String × JSON) :=
  some ("/tasks/" ++ taskID, updateTaskDoc updates now)

/-- Response handling of `FirebaseService.UpdateTask`. -/
def updateTask (resp : StoreResponse) : Except StoreErr Unit :=
  if 400 ≤ resp.status then .error (.updateTaskFailed resp.rawBody)
  else .ok ()

/-- Response handling of `FirebaseService.DeleteTask`. -/
def deleteTask (resp : StoreResponse) : Except StoreErr Unit :=
  if 400 ≤ resp.status then .error (.deleteTaskFailed resp.rawBody)
  else .ok ()

/-- `FirebaseService.UpdateMeeting` is a stub: it logs, issues no request,
and returns nil. -/
def updateMeetingRequest (meetingID : String) (updates : Updates) :
    Option (String × JSON) :=
  none

/-- `FirebaseService.UpdateMeeting`'s unconditional result. -/
def updateMeeting (meetingID : String) (updates : Updates) : Except StoreErr Unit :=
  .ok ()

/-- `FirebaseService.UpdateReminder` is a stub: it logs, issues no
request, and returns nil. -/
def updateReminderRequest (reminderID : String) (updates : Updates) :
    Option (String × JSON) :=
  none

/-- `FirebaseService.UpdateReminder`'s unconditional result. -/
def updateReminder (reminderID : String) (updates : Updates) : Except StoreErr Unit :=
  .ok ()

deriving instance DecidableEq for Except

/-! Helper lemmas shared by the claim theorems. -/

theorem jLookup_eq_none_of_not_mem_fst {o : JObj} {k : String}
    (h : k ∉ o.map Prod.fst) : jLookup o k = none := by
  induction o with
  | nil => rfl
  | cons e rest ih =>
    obtain ⟨k', v'⟩ := e
    simp only [List.map_cons, List.mem_cons] at h
    push_neg at h
    have hne : ¬ (k' = k) := fun he => h.1 he.symm
    simp only [jLookup, if_neg hne]
    exact ih h.2

theorem buildPatch_fst_subset {u : Updates} {k : String}
    (h : k ∈ (buildPatch u).map Prod.fst) : k ∈ u.map Prod.fst := by
  induction u with
  | nil => simpa [buildPatch] using h
  | cons e rest ih =>
    obtain ⟨k', v'⟩ := e
    simp only [List.map_cons, List.mem_cons]
    cases v' with
    | str s =>
      simp only [buildPatch, List.map_cons, List.mem_cons] at h
      rcases h with h | h
      · exact Or.inl h
      · exact Or.inr (ih h)
    | time t =>
      simp only [buildPatch, List.map_cons, List.mem_cons] at h
      rcases h with h | h
      · exact Or.inl h
      · exact Or.inr (ih h)
    | boolean b =>
      simp only [buildPatch, List.map_cons, List.mem_cons] at h
      rcases h with h | h
      · exact Or.inl h
      · exact Or.inr (ih h)
    | int n => exact Or.inr (ih (by simpa [buildPatch] using h))
    | strList xs => exact Or.inr (ih (by simpa [buildPatch] using h))
    | null => exact Or.inr (ih (by simpa [buildPatch] using h))

theorem buildPatch_mapSet_time (u : Updates) (k : String) (t : GoTime) :
    jLookup (buildPatch (mapSet u k (.time t))) k = some (fsTimestamp t) := by
  induction u with
  | nil => simp [mapSet, buildPatch, jLookup]
  | cons e rest ih =>
    obtain ⟨k', v'⟩ := e
    by_cases h : k' = k
    · subst h
      simp [mapSet, buildPatch, jLookup]
    · simp only [mapSet, if_neg h]
      cases v' <;> simp [buildPatch, jLookup, h, ih]

/-- Claim C10: encoding a Meeting or a Reminder record always produces a
document with an empty field map: the encoder's type switch covers only
the UserSession and Task kinds, and every other input falls through with
no fields emitted. -/
theorem toFirestoreDoc_meeting_reminder_empty :
    ∀ (m : Meeting) (r : Reminder),
      toFirestoreDoc (.meeting m) = .obj [("fields", .obj [])] ∧
      toFirestoreDoc (.reminder r) = .obj [("fields", .obj [])] :=
  fun _ _ => ⟨rfl, rfl⟩

theorem toFirestoreDoc_meeting_reminder_empty_witness :
    toFirestoreDoc (.meeting Meeting.zero) = .obj [("fields", .obj [])] ∧
    toFirestoreDoc (.reminder Reminder.zero) = .obj [("fields", .obj [])] :=
  toFirestoreDoc_meeting_reminder_empty Meeting.zero Reminder.zero

/-- Claim C9: when the store answers the list request with an error
status (>= 400) or a body that does not parse as JSON, `GetTasks`
returns an empty list together with a nil error, hiding the store-side
failure from the caller. -/
theorem getTasks_swallows_store_failures (userID : String) (resp : StoreResponse)
    (h : 400 ≤ resp.status ∨ resp.json = none) :
    getTasks userID resp = .ok [] := by
  rcases h with h | h
  · simp [getTasks, if_pos h]
  · by_cases h4 : 400 ≤ resp.status
    · simp [getTasks, h4]
    · simp [getTasks, h4, h]

theorem getTasks_swallows_store_failures_witness :
    getTasks "u1" { status := 500, rawBody := "internal error", json := none } = .ok [] :=
  getTasks_swallows_store_failures "u1" _ (Or.inl (by norm_num))

/-- Claim C7: a `GetUser` whose store response has the not-found status
404 fails with the dedicated not-found error, which is distinct (as a
value and as a rendered message) from the generic store-failure error,
so callers can branch on absence versus failure. -/
theorem getUser_distinguishes_notFound (resp : StoreResponse) (h : resp.status = 404) :
    getUser resp = .error .userNotFound ∧
    StoreErr.userNotFound ≠ StoreErr.getUserFailed ∧
    StoreErr.userNotFound.render ≠ StoreErr.getUserFailed.render := by
  refine ⟨by simp [getUser, h], by simp, by decide⟩

theorem getUser_distinguishes_notFound_witness :
    getUser { status := 404, rawBody := "", json := none } = .error .userNotFound ∧
    StoreErr.userNotFound ≠ StoreErr.getUserFailed ∧
    StoreErr.userNotFound.render ≠ StoreErr.getUserFailed.render :=
  getUser_distinguishes_notFound { status := 404, rawBody := "", json := none } rfl

/-- Claim C3 counterexample: on a status-500 response with a body, the
list operation does not fail with any error at all, let alone a
`StoreError` carrying the status and body: it succeeds with an empty
list. -/
theorem getTasks_on_500_succeeds :
    getTasks "u1" { status := 500, rawBody := "internal error", json := none } =
      .ok ([] : List Task) := rfl

/-- Claim C3 as amended: on a status-500 response, create, update and
delete fail with an error whose message carries the body verbatim (but
not the status code), the user get fails with a fixed message carrying
neither, and the task list succeeds with an empty list. -/
theorem operations_on_status_500 (resp : StoreResponse) (userID : String)
    (h : resp.status = 500) :
    createTask resp = .error (.createTaskFailed resp.rawBody) ∧
    (StoreErr.createTaskFailed resp.rawBody).render =
      "failed to create task: " ++ resp.rawBody ∧
    updateTask resp = .error (.updateTaskFailed resp.rawBody) ∧
    deleteTask resp = .error (.deleteTaskFailed resp.rawBody) ∧
    createUser resp = .error (.createUserFailed resp.rawBody) ∧
    updateUser resp = .error (.updateUserFailed resp.rawBody) ∧
    getUser resp = .error .getUserFailed ∧
    getTasks userID resp = .ok [] := by
  refine ⟨?_, rfl, ?_, ?_, ?_, ?_, ?_, ?_⟩ <;>
    simp [createTask, updateTask, deleteTask, createUser, updateUser, getUser, getTasks, h]

theorem operations_on_status_500_witness :
    createTask { status := 500, rawBody := "boom", json := none } =
      .error (.createTaskFailed "boom") ∧
    (StoreErr.createTaskFailed "boom").render = "failed to create task: " ++ "boom" ∧
    updateTask { status := 500, rawBody := "boom", json := none } =
      .error (.updateTaskFailed "boom") ∧
    deleteTask { status := 500, rawBody := "boom", json := none } =
      .error (.deleteTaskFailed "boom") ∧
    createUser { status := 500, rawBody := "boom", json := none } =
      .error (.createUserFailed "boom") ∧
    updateUser { status := 500, rawBody := "boom", json := none } =
      .error (.updateUserFailed "boom") ∧
    getUser { status := 500, rawBody := "boom", json := none } = .error .getUserFailed ∧
    getTasks "u1" { status := 500, rawBody := "boom", json := none } = .ok [] :=
  operations_on_status_500 { status := 500, rawBody := "boom", json := none } "u1" rfl

/-- Claim C6 counterexample: the meeting update operation, for a
field-updates mapping that even carries a caller-supplied last-modified
value, issues no PATCH request at all (so nothing is injected) and
succeeds unconditionally. -/
theorem updateMeeting_issues_no_patch :
    updateMeetingRequest "m1" [("updatedAt", .str "caller-value")] = none ∧
    updateMeeting "m1" [("updatedAt", .str "caller-value")] = .ok () :=
  ⟨rfl, rfl⟩

/-- Claim C6 as amended: the task and user update operations inject the
server-maintained last-modified timestamp (`updatedAt` resp. `lastLogin`)
into the patch before the PATCH request, overwriting any caller-supplied
value; the meeting and reminder update operations are unimplemented stubs
that issue no request and succeed unconditionally. -/
theorem update_injects_lastModified :
    ∀ (id : String) (updates : Updates) (now : GoTime),
      (∃ fs, updateTaskDoc updates now = .obj [("fields", .obj fs)] ∧
        jLookup fs "updatedAt" = some (fsTimestamp now)) ∧
      (∃ fs, updateUserDoc updates now = .obj [("fields", .obj fs)] ∧
        jLookup fs "lastLogin" = some (fsTimestamp now)) ∧
      updateMeetingRequest id updates = none ∧
      updateReminderRequest id updates = none :=
  fun _ updates now =>
    ⟨⟨_, rfl, buildPatch_mapSet_time updates "updatedAt" now⟩,
     ⟨_, rfl, buildPatch_mapSet_time updates "lastLogin" now⟩, rfl, rfl⟩

theorem update_injects_lastModified_witness :
    (∃ fs, updateTaskDoc [("updatedAt", .str "caller-value")] ⟨2024, 1, 2, 3, 4, 5⟩ =
        .obj [("fields", .obj fs)] ∧
      jLookup fs "updatedAt" = some (fsTimestamp ⟨2024, 1, 2, 3, 4, 5⟩)) ∧
    (∃ fs, updateUserDoc [("updatedAt", .str "caller-value")] ⟨2024, 1, 2, 3, 4, 5⟩ =
        .obj [("fields", .obj fs)] ∧
      jLookup fs "lastLogin" = some (fsTimestamp ⟨2024, 1, 2, 3, 4, 5⟩)) ∧
    updateMeetingRequest "m1" [("updatedAt", .str "caller-value")] = none ∧
    updateReminderRequest "m1" [("updatedAt", .str "caller-value")] = none :=
  update_injects_lastModified "m1" [("updatedAt", .str "caller-value")] ⟨2024, 1, 2, 3, 4, 5⟩

/-- Claim C2 counterexample: decoding a Task document in which every
required field except `userId` is absent and `title` is present with the
wrong variant (`booleanValue`) succeeds, with no `FieldMissing` or
`FieldTypeMismatch` error, returning a partially populated record. -/
theorem decode_partial_success :
    fromFirestoreDocTask
      [("fields", .obj [("userId", fsString "u1"),
                        ("title", .obj [("booleanValue", .boolean true)])])]
      Task.zero = .ok { Task.zero with userID := "u1" } := rfl

/-- Claim C2 as amended: for every record kind, decoding fails only when
the document has no `fields` map, with a single generic invalid-format
error; whenever `fields` is present, decoding always succeeds (the
UserSession and Task arms silently skip absent fields and fields of the
wrong variant, and the Meeting and Reminder arms leave the record
untouched), so partially populated records are returned as success. -/
theorem fromFirestoreDoc_total (doc : JObj) (init : Record) :
    ((∃ r, fromFirestoreDoc doc init = .ok r) ↔
      (∃ fs, jLookup doc "fields" = some (.obj fs))) ∧
    ((∀ fs, jLookup doc "fields" ≠ some (.obj fs)) →
      fromFirestoreDoc doc init = .error .badDocFormat) := by
  have hmain : ∀ fs, jLookup doc "fields" = some (.obj fs) →
      ∃ r, fromFirestoreDoc doc init = .ok r := by
    intro fs hfs
    cases init with
    | session u =>
      exact ⟨.session (decodeSessionFields fs u),
        by simp [fromFirestoreDoc, fromFirestoreDocSession, hfs, Except.map]⟩
    | task t =>
      exact ⟨.task (decodeTaskFields fs t),
        by simp [fromFirestoreDoc, fromFirestoreDocTask, hfs, Except.map]⟩
    | meeting m => exact ⟨.meeting m, by simp [fromFirestoreDoc, hfs]⟩
    | reminder rm => exact ⟨.reminder rm, by simp [fromFirestoreDoc, hfs]⟩
  have herr : (∀ fs, jLookup doc "fields" ≠ some (.obj fs)) →
      fromFirestoreDoc doc init = .error .badDocFormat := by
    intro hno
    cases hl : jLookup doc "fields" with
    | none =>
      cases init <;>
        simp [fromFirestoreDoc, fromFirestoreDocSession, fromFirestoreDocTask,
          hl, Except.map]
    | some j =>
      cases j
      case obj fs => exact absurd hl (hno fs)
      all_goals
        cases init <;>
          simp [fromFirestoreDoc, fromFirestoreDocSession, fromFirestoreDocTask,
            hl, Except.map]
  refine ⟨⟨?_, fun hfs => hfs.elim hmain⟩, herr⟩
  rintro ⟨r, hr⟩
  by_cases hex : ∃ fs, jLookup doc "fields" = some (.obj fs)
  · exact hex
  · push_neg at hex
    rw [herr hex] at hr
    simp at hr

theorem fromFirestoreDoc_total_witness :
    ((∃ r, fromFirestoreDoc [("foo", .str "bar")] (.meeting Meeting.zero) = .ok r) ↔
      (∃ fs, jLookup [("foo", .str "bar")] "fields" = some (.obj fs))) ∧
    ((∀ fs, jLookup [("foo", .str "bar")] "fields" ≠ some (.obj fs)) →
      fromFirestoreDoc [("foo", .str "bar")] (.meeting Meeting.zero) =
        .error .badDocFormat) :=
  fromFirestoreDoc_total [("foo", .str "bar")] (.meeting Meeting.zero)

theorem buildPatch_lookup_aux (u : Updates) :
    (u.map Prod.fst).Nodup → ∀ k v, (k, v) ∈ u →
      match v with
      | .str s => jLookup (buildPatch u) k = some (fsString s)
      | .time t => jLookup (buildPatch u) k = some (fsTimestamp t)
      | .boolean b => jLookup (buildPatch u) k = some (fsBool b)
      | .int _ => jLookup (buildPatch u) k = none
      | .strList _ => jLookup (buildPatch u) k = none
      | .null => jLookup (buildPatch u) k = none := by
  induction u with
  | nil => intro _ k v h; exact absurd h (List.not_mem_nil _)
  | cons e rest ih =>
    obtain ⟨k', v'⟩ := e
    intro hnd k v hmem
    simp only [List.map_cons, List.nodup_cons] at hnd
    obtain ⟨hk', hrest⟩ := hnd
    rcases List.mem_cons.mp hmem with heq | hmem'
    · rw [Prod.mk.injEq] at heq
      obtain ⟨rfl, rfl⟩ := heq
      have hnone : jLookup (buildPatch rest) k = none :=
        jLookup_eq_none_of_not_mem_fst (fun hm => hk' (buildPatch_fst_subset hm))
      cases v <;> simp [buildPatch, jLookup, hnone]
    · have hkrest : k ∈ rest.map Prod.fst :=
        List.mem_map.mpr ⟨(k, v), hmem', rfl⟩
      have hne : ¬ (k' = k) := fun he => hk' (he ▸ hkrest)
      have htail := ih hrest k v hmem'
      cases v <;> cases v' <;>
        simpa [buildPatch, jLookup, if_neg hne] using htail

/-- Claim C5: for every field-updates mapping with distinct keys, the
patch builder maps text entries to `stringValue` fields, boolean entries
to `booleanValue` fields and timestamp entries to `timestampValue`
fields; entries of any unrecognized shape (numbers, arrays, nil) are
omitted without error, and no field appears in the result that was not
in the mapping. -/
theorem buildPatch_shapes (updates : Updates)
    (hnd : (updates.map Prod.fst).Nodup) :
    (∀ k v, (k, v) ∈ updates →
      match v with
      | .str s => jLookup (buildPatch updates) k = some (fsString s)
      | .time t => jLookup (buildPatch updates) k = some (fsTimestamp t)
      | .boolean b => jLookup (buildPatch updates) k = some (fsBool b)
      | .int _ => jLookup (buildPatch updates) k = none
      | .strList _ => jLookup (buildPatch updates) k = none
      | .null => jLookup (buildPatch updates) k = none) ∧
    (∀ k, k ∈ (buildPatch updates).map Prod.fst → k ∈ updates.map Prod.fst) :=
  ⟨buildPatch_lookup_aux updates hnd, fun _ => buildPatch_fst_subset⟩

/-- The spec's worked example of a patch mapping, extended with two
unrecognized shapes. -/
def patchDemo : Updates :=
  [("status", .str "completed"),
   ("completed", .boolean true),
   ("completedAt", .time ⟨2024, 5, 1, 10, 0, 0⟩),
   ("estimatedHours", .int 3),
   ("attendees", .strList ["alice"])]

theorem buildPatch_shapes_witness :
    ((patchDemo.map Prod.fst).Nodup) ∧
    jLookup (buildPatch patchDemo) "status" = some (fsString "completed") ∧
    jLookup (buildPatch patchDemo) "completed" = some (fsBool true) ∧
    jLookup (buildPatch patchDemo) "completedAt" =
      some (fsTimestamp ⟨2024, 5, 1, 10, 0, 0⟩) ∧
    jLookup (buildPatch patchDemo) "estimatedHours" = none ∧
    jLookup (buildPatch patchDemo) "attendees" = none := by
  have h := buildPatch_shapes patchDemo (by decide)
  exact ⟨by decide,
    h.1 "status" (.str "completed") (by decide),
    h.1 "completed" (.boolean true) (by decide),
    h.1 "completedAt" (.time ⟨2024, 5, 1, 10, 0, 0⟩) (by decide),
    h.1 "estimatedHours" (.int 3) (by decide),
    h.1 "attendees" (.strList ["alice"]) (by decide)⟩

/-- Claim C8: a successful create returns to the caller exactly the
final path segment of the `name` resource path in the store's create
response. -/
theorem createTask_returns_final_segment (resp : StoreResponse)
    (result : JObj) (name : String)
    (hstatus : resp.status < 400)
    (hjson : resp.json = some (.obj result))
    (hname : jLookup result "name" = some (.str name)) :
    createTask resp = .ok (specFinalSegment name) := by
  have h4 : ¬ 400 ≤ resp.status := by omega
  simp [createTask, h4, hjson, hname, goLastSegment_eq_specFinalSegment]

theorem createTask_returns_final_segment_witness :
    createTask
      ⟨200, "",
        some (.obj [("name",
          .str "projects/p/databases/(default)/documents/tasks/abc123")])⟩ =
      .ok "abc123" := by
  have h := createTask_returns_final_segment
    ⟨200, "",
      some (.obj [("name",
        .str "projects/p/databases/(default)/documents/tasks/abc123")])⟩
    [("name", .str "projects/p/databases/(default)/documents/tasks/abc123")]
    "projects/p/databases/(default)/documents/tasks/abc123"
    (by norm_num) rfl rfl
  rw [h]
  rfl

/-- Modelled from the spec's words: decode one fetched document into a
task paired with the identifier carried by its resource name. -/
def specDecodeDoc (dj : JSON) : Option (String × Task) :=
  match dj with
  | .obj doc =>
    match fromFirestoreDocTask doc Task.zero with
    | .ok t =>
      some (match jLookup doc "name" with
            | some (.str n) => specFinalSegment n
            | _ => t.id, t)
    | .error _ => none
  | _ => none

/-- Modelled from the spec's words: decode every document independently
(skipping failures), filter by owner, then return with identifiers
attached, in the fetched order. -/
def specList (userID : String) (docs : List JSON) : List Task :=
  ((docs.filterMap specDecodeDoc).filter (fun p => p.2.userID == userID)).map
    (fun p => { p.2 with id := p.1 })

theorem getTasksLoop_eq_specList (userID : String) (docs : List JSON) :
    getTasksLoop userID docs = specList userID docs := by
  induction docs with
  | nil => rfl
  | cons dj rest ih =>
    simp only [specList, List.filterMap_cons] at ih ⊢
    cases dj with
    | obj doc =>
      simp only [getTasksLoop, specDecodeDoc]
      cases hdec : fromFirestoreDocTask doc Task.zero with
      | error e => simpa using ih
      | ok t =>
        by_cases hu : t.userID = userID
        · subst hu
          cases hname : jLookup doc "name" with
          | none => simp [hname, ih, List.filter_cons]
          | some j =>
            cases j <;>
              simp [hname, ih, List.filter_cons, goLastSegment_eq_specFinalSegment]
        · have hbe : (t.userID == userID) = false := beq_eq_false_iff_ne.mpr hu
          simp [if_neg hu, List.filter_cons, hbe, ih]
    | str s => simpa using ih
    | boolean b => simpa using ih
    | num n => simpa using ih
    | null => simpa using ih
    | arr a => simpa using ih

/-- Claim C4: over any fetched collection, the list operation returns
exactly the records whose `userId` equals the requested owner, each with
its identifier set to the final path segment of its document's resource
name, in the store's returned order, with undecodable documents skipped
rather than failing the call. -/
theorem getTasks_filters_by_owner (userID : String) (resp : StoreResponse)
    (result : JObj) (docs : List JSON)
    (hstatus : resp.status < 400)
    (hjson : resp.json = some (.obj result))
    (hdocs : jLookup result "documents" = some (.arr docs)) :
    getTasks userID resp = .ok (specList userID docs) := by
  have h4 : ¬ 400 ≤ resp.status := by omega
  simp [getTasks, h4, hjson, hdocs, getTasksLoop_eq_specList]

/-- A fetched collection: two documents owned by `u1`, one by `u2`, and
one document with no `fields` map (which fails decoding). -/
def demoDocs : List JSON :=
  [.obj [("name", .str "projects/p/databases/(default)/documents/tasks/t1"),
         ("fields", .obj [("userId", fsString "u1"), ("title", fsString "Buy milk"),
                          ("completed", fsBool false), ("status", fsString "todo"),
                          ("priority", fsString "high")])],
   .obj [("name", .str "projects/p/databases/(default)/documents/tasks/t2"),
         ("fields", .obj [("userId", fsString "u2"), ("title", fsString "Other")])],
   .obj [("name", .str "projects/p/databases/(default)/documents/tasks/t3")],
   .obj [("name", .str "projects/p/databases/(default)/documents/tasks/t4"),
         ("fields", .obj [("userId", fsString "u1"), ("title", fsString "Walk dog")])]]

theorem getTasks_filters_by_owner_witness :
    getTasks "u1" ⟨200, "", some (.obj [("documents", .arr demoDocs)])⟩ =
      .ok [{ Task.zero with
             id := "t1", userID := "u1", title := "Buy milk",
             status := "todo", priority := "high" },
           { Task.zero with id := "t4", userID := "u1", title := "Walk dog" }] := by
  have h := getTasks_filters_by_owner "u1"
    ⟨200, "", some (.obj [("documents", .arr demoDocs)])⟩
    [("documents", .arr demoDocs)] demoDocs (by norm_num) rfl rfl
  rw [h]
  rfl

/-- Whether an optional timestamp, when present, is calendar-valid. -/
def OptValid : Option GoTime → Prop
  | some t => t.Valid
  | none => True

instance : (o : Option GoTime) → Decidable (OptValid o)
  | some t => inferInstanceAs (Decidable t.Valid)
  | none => inferInstanceAs (Decidable True)

/-- The record shapes that actually survive the encode/decode round
trip: sessions with valid timestamps, and tasks with valid timestamps
whose identifier is empty and whose `estimatedHours`, `actualHours` and
`googleEventId` are absent. -/
def RoundTrippable : Record → Prop
  | .session u => u.createdAt.Valid ∧ u.lastLogin.Valid
  | .task t => t.id = "" ∧ t.estimatedHours = none ∧ t.actualHours = none ∧
      t.googleEventID = none ∧ t.createdAt.Valid ∧ t.updatedAt.Valid ∧
      OptValid t.startDate ∧ OptValid t.dueDate
  | .meeting _ => False
  | .reminder _ => False

instance : (r : Record) → Decidable (RoundTrippable r)
  | .session _ => inferInstanceAs (Decidable (_ ∧ _))
  | .task _ => inferInstanceAs (Decidable (_ ∧ _))
  | .meeting _ => inferInstanceAs (Decidable False)
  | .reminder _ => inferInstanceAs (Decidable False)

/-- Claim C1 counterexample: a Meeting record with a nonzero field does
not survive the round trip: it is encoded as an empty document and
decoded back as the zero Meeting. -/
theorem roundTrip_fails_for_meeting :
    roundTrip (.meeting { Meeting.zero with title := "standup" }) ≠
      .ok (.meeting { Meeting.zero with title := "standup" }) := by
  decide

/-- Claim C1 as amended: `decode(encode(r)) = r` holds for UserSession
records with valid timestamps and for Task records with valid
timestamps whose identifier is empty and whose `estimatedHours`,
`actualHours` and `googleEventId` are absent; Meeting and Reminder
records do not round-trip (they encode to empty documents and decode to
zero records), and a Task's integer-hour fields are encoded but never
decoded. -/
theorem roundTrip_restricted (r : Record) (h : RoundTrippable r) :
    roundTrip r = .ok r := by
  cases r with
  | meeting m => exact h.elim
  | reminder rm => exact h.elim
  | session u =>
    obtain ⟨uid, em, nm, tok, rt, ca, ll⟩ := u
    simp only [RoundTrippable] at h
    obtain ⟨hca, hll⟩ := h
    cases rt with
    | none =>
      simp [roundTrip, toFirestoreDoc, sessionFields, Record.zeroLike,
        fromFirestoreDoc, fromFirestoreDocSession, decodeSessionFields,
        getStringValue, getTimestampValue, jLookup, fsString, fsTimestamp,
        UserSession.zero, Except.map, parseRFC3339_formatRFC3339 _ hca,
        parseRFC3339_formatRFC3339 _ hll]
    | some rtok =>
      simp [roundTrip, toFirestoreDoc, sessionFields, Record.zeroLike,
        fromFirestoreDoc, fromFirestoreDocSession, decodeSessionFields,
        getStringValue, getTimestampValue, jLookup, fsString, fsTimestamp,
        UserSession.zero, Except.map, parseRFC3339_formatRFC3339 _ hca,
        parseRFC3339_formatRFC3339 _ hll]
  | task t =>
    obtain ⟨tid, tuid, ttl, tdesc, tcomp, tstat, tprio, tsd, tdd, teh, tah, tge, tca, tua⟩ := t
    simp only [RoundTrippable] at h
    obtain ⟨rfl, rfl, rfl, rfl, hca, hua, hsd, hdd⟩ := h
    cases tdesc <;> cases tsd <;> cases tdd <;>
      simp_all [roundTrip, toFirestoreDoc, taskFields, Record.zeroLike,
        fromFirestoreDoc, fromFirestoreDocTask, decodeTaskFields,
        getStringValue, getBooleanValue, getTimestampValue, jLookup,
        fsString, fsBool, fsTimestamp, Task.zero, OptValid, Except.map,
        parseRFC3339_formatRFC3339]

/-- The concrete task used to witness the amended round-trip theorem. -/
def demoTask : Task :=
  { Task.zero with
    userID := "u1", title := "Write spec",
    description := some "notes", completed := true, status := "in-progress",
    priority := "high", startDate := some ⟨2024, 2, 29, 8, 30, 0⟩,
    dueDate := some ⟨2024, 12, 31, 23, 59, 59⟩,
    createdAt := ⟨2024, 1, 15, 9, 0, 1⟩, updatedAt := ⟨2024, 6, 1, 12, 0, 0⟩ }

theorem roundTrip_restricted_witness :
    roundTrip (.task demoTask) = .ok (.task demoTask) :=
  roundTrip_restricted _ (by decide)

end FocusFlow
